import Mathlib

/-!
Verification of the `brush` file-processing pipeline (`src/brush.js`).

The development shallowly embeds the program:
* the template renderer `userPromptTemplate.replace(/{{\s*CONTENT\s*}}/g, content)`
  is embedded with the full ECMAScript `String.prototype.replace` semantics for a
  string replacement argument, including the dollar-escape sequences of
  `GetSubstitution`;
* the driver (`main` together with its inner helper `processFile`) is embedded as
  a function from an oracle `World` (the results the filesystem, the environment,
  the glob library and the completion service would deliver) to the list of
  observable events it performs plus the process exit code.
-/

namespace Brush

/-- ECMAScript `\s` character class (WhiteSpace ∪ LineTerminator), as used by the
token regular expression in `processFile`. -/
def isJsSpace (c : Char) : Bool :=
  c = ' ' || c = '\t' || c = '\n' || c.toNat = 11 || c.toNat = 12 || c = '\r' ||
  c.toNat = 0xa0 || c.toNat = 0x1680 ||
  (0x2000 ≤ c.toNat && c.toNat ≤ 0x200a) ||
  c.toNat = 0x2028 || c.toNat = 0x2029 || c.toNat = 0x202f ||
  c.toNat = 0x205f || c.toNat = 0x3000 || c.toNat = 0xfeff

/-- Attempt to match the token regular expression `{{\s*CONTENT\s*}}` at the head
of `s`.  Since no character of `CONTENT` or `}}` is in `\s`, the greedy `\s*`
consumes exactly the maximal whitespace run, so the regex match is equivalent to
this deterministic scan.  Returns the matched characters and the remainder. -/
def matchTokenAt (s : List Char) : Option (List Char × List Char) :=
  match s with
  | '\x7b' :: '\x7b' :: s1 =>
    let ws1 := s1.takeWhile isJsSpace
    let s2 := s1.dropWhile isJsSpace
    if s2.take 7 = "CONTENT".toList then
      let s3 := s2.drop 7
      let ws2 := s3.takeWhile isJsSpace
      let s4 := s3.dropWhile isJsSpace
      match s4 with
      | '\x7d' :: '\x7d' :: s5 =>
        some ('\x7b' :: '\x7b' :: (ws1 ++ "CONTENT".toList ++ ws2 ++ ['\x7d', '\x7d']), s5)
      | _ => none
    else none
  | _ => none

/-- ECMAScript `GetSubstitution` for a replacement string, specialised to a
regular expression with no capture groups: `$$` yields `$`, `$&` the matched
text, a dollar followed by a backquote the text before the match, a dollar
followed by a single quote the text after the match; any other `$` is literal. -/
def getSubstitution (m b a : List Char) : List Char → List Char
  | [] => []
  | c :: rest =>
    if c = '$' then
      match rest with
      | [] => ['$']
      | d :: r =>
        if d = '$' then '$' :: getSubstitution m b a r
        else if d = '&' then m ++ getSubstitution m b a r
        else if d = Char.ofNat 96 then b ++ getSubstitution m b a r
        else if d = Char.ofNat 39 then a ++ getSubstitution m b a r
        else '$' :: getSubstitution m b a (d :: r)
    else c :: getSubstitution m b a rest

/-- Global-replace scan: walk the subject left to right; at each position either
replace a token match (`rep` receives matched text, text before, text after) and
continue after it, or emit one character.  `before` accumulates the original
text already passed.  Each step consumes at least one subject character, so fuel
equal to the subject length always suffices; exhausted fuel returns the rest
unchanged (reachable only with the subject already empty). -/
def replGo (rep : List Char → List Char → List Char → List Char) :
    Nat → List Char → List Char → List Char
  | 0, _, s => s
  | Nat.succ fuel, before, s =>
    match matchTokenAt s with
    | some (m, r) => rep m before r ++ replGo rep fuel (before ++ m) r
    | none =>
      match s with
      | [] => []
      | c :: cs => c :: replGo rep fuel (before ++ [c]) cs

/-- The renderer exactly as the source performs it:
`userPromptTemplate.replace(/{{\s*CONTENT\s*}}/g, content)` with JavaScript
string-replacement semantics (dollar escapes interpreted). -/
def jsRender (tmpl content : String) : String :=
  (replGo (fun m b a => getSubstitution m b a content.toList)
    tmpl.toList.length [] tmpl.toList).asString

/-- Comparison definition for the refinement claim, modelled from the spec's
words: replace every occurrence of the placeholder token with the literal
content, unescaped. -/
def literalRender (tmpl content : String) : String :=
  (replGo (fun _ _ _ => content.toList) tmpl.toList.length [] tmpl.toList).asString

/-- Whether the subject contains a token match at any position. -/
def hasToken : List Char → Bool
  | [] => false
  | c :: cs => (matchTokenAt (c :: cs)).isSome || hasToken cs

/-- Number of (left-to-right, non-overlapping) token matches in a string. -/
def countTokensGo : Nat → List Char → Nat
  | 0, _ => 0
  | Nat.succ fuel, s =>
    match matchTokenAt s with
    | some (_, r) => 1 + countTokensGo fuel r
    | none =>
      match s with
      | [] => 0
      | _ :: cs => countTokensGo fuel cs

/-- Number of token matches in a string. -/
def countTokens (s : String) : Nat := countTokensGo s.toList.length s.toList

/-- Number of (possibly overlapping) occurrences of `pat` in a character list. -/
def countOccur (pat : List Char) : List Char → Nat
  | [] => if pat.isPrefixOf ([] : List Char) then 1 else 0
  | c :: cs => (if pat.isPrefixOf (c :: cs) then 1 else 0) + countOccur pat cs

end Brush

namespace Brush

/-- Result of the one `openai.chat.completions.create` exchange for a file:
either the call threw (network or API error), or it returned a response whose
`choices` list is embedded as the list of `message.content` fields (with `none`
standing for a `null` content). -/
inductive ReqOutcome where
  | threw (msg : String)
  | returned (choices : List (Option String))
deriving DecidableEq

/-- Observable events of a run, in program order.  `globbed` marks that the
`fast-glob` call (pattern resolution) was performed; `fileRead`/`readFailed`
the attempt to read a target; `requested` carries the rendered user prompt of
the issued completion request; `wrote p t` the successful overwrite of `p`
with exactly `t`; `delayed ms` the `setTimeout` pacing suspension. -/
inductive Event where
  | globbed
  | fileRead (p : String)
  | readFailed (p : String)
  | requested (p : String) (userPrompt : String)
  | requestFailed (p : String)
  | emptyResponse (p : String)
  | skipped (p : String)
  | printed (p : String) (text : String)
  | wrote (p : String) (text : String)
  | writeFailed (p : String)
  | delayed (ms : Nat)
deriving DecidableEq

/-- The configuration record destructured from the parsed JSON config, with the
source's defaults already applied. -/
structure Config where
  patterns : List String
  ignore : List String
  dryRun : Bool
  model : String
  intervalMilis : Nat
deriving DecidableEq

/-- Oracle for everything outside the program: CLI argument, config file,
prompt files, glob library, environment credential, per-file reads, the
completion service, and per-file write success.  `none` in an `Option`-valued
field models the corresponding failure (missing argument, unreadable or
unparseable file, thrown glob error, unset environment variable). -/
structure World where
  configArg : Option String
  configResult : Option Config
  systemPromptResult : Option String
  userPromptResult : Option String
  globResult : Option (List String)
  apiKey : Option String
  readResult : String → Option String
  reqResult : String → ReqOutcome
  writeOk : String → Bool

/-- The inner helper `processFile`: read the file, render the user prompt,
perform the exchange, and return the first choice's `message.content` (which
the caller compares against `null`); any failure logs and returns `null`
(`none`).  The returned event list is what this call performs. -/
def processFile (w : World) (tmpl : String) (fp : String) : List Event × Option String :=
  match w.readResult fp with
  | none => ([Event.readFailed fp], none)
  | some content =>
    let userPrompt := jsRender tmpl content
    match w.reqResult fp with
    | ReqOutcome.threw _ =>
      ([Event.fileRead fp, Event.requested fp userPrompt, Event.requestFailed fp], none)
    | ReqOutcome.returned choices =>
      match choices with
      | [] => ([Event.fileRead fp, Event.requested fp userPrompt, Event.emptyResponse fp], none)
      | c :: _ => ([Event.fileRead fp, Event.requested fp userPrompt], c)

/-- The `for (const filePath of entries)` loop of `main`.  Returns the events
performed and `some code` when the loop terminated the process via
`process.exit(code)`, `none` when it ran off the end of the list.  Mirrors the
source exactly: a `null` result is reported as skipped, then dry-run exits 1
and normal mode continues; a non-`null` result in dry-run prints it and exits
0; otherwise the file is overwritten (a write error is reported but not fatal)
and the `intervalMilis` suspension runs — including after the last file, the
source comment notwithstanding. -/
def runLoop (w : World) (tmpl : String) (dryRun : Bool) (interval : Nat) :
    List String → List Event × Option Nat
  | [] => ([], none)
  | fp :: rest =>
    let pr := processFile w tmpl fp
    match pr.2 with
    | none =>
      if dryRun then (pr.1 ++ [Event.skipped fp], some 1)
      else
        let r := runLoop w tmpl dryRun interval rest
        (pr.1 ++ [Event.skipped fp] ++ r.1, r.2)
    | some text =>
      if dryRun then (pr.1 ++ [Event.printed fp text], some 0)
      else
        let wev := if w.writeOk fp then [Event.wrote fp text] else [Event.writeFailed fp]
        let r := runLoop w tmpl dryRun interval rest
        (pr.1 ++ wev ++ [Event.delayed interval] ++ r.1, r.2)

/-- `main`, in the source's order: CLI argument, config load and destructuring,
`patterns` non-emptiness, system prompt load, user prompt load, glob call,
zero-match short circuit (exit 0), credential check, then the loop; falling out
of the loop ends the process with code 0. -/
def mainRun (w : World) : List Event × Nat :=
  match w.configArg with
  | none => ([], 1)
  | some _ =>
    match w.configResult with
    | none => ([], 1)
    | some cfg =>
      if cfg.patterns.isEmpty then ([], 1)
      else
        match w.systemPromptResult with
        | none => ([], 1)
        | some _ =>
          match w.userPromptResult with
          | none => ([], 1)
          | some tmpl =>
            match w.globResult with
            | none => ([Event.globbed], 1)
            | some entries =>
              if entries.isEmpty then ([Event.globbed], 0)
              else
                match w.apiKey with
                | none => ([Event.globbed], 1)
                | some _ =>
                  let r := runLoop w tmpl cfg.dryRun cfg.intervalMilis entries
                  (Event.globbed :: r.1, r.2.getD 0)

/-- The target path an event is about, when it is about one. -/
def eventPath : Event → Option String
  | Event.globbed => none
  | Event.delayed _ => none
  | Event.fileRead p => some p
  | Event.readFailed p => some p
  | Event.requested p _ => some p
  | Event.requestFailed p => some p
  | Event.emptyResponse p => some p
  | Event.skipped p => some p
  | Event.printed p _ => some p
  | Event.wrote p _ => some p
  | Event.writeFailed p => some p

/-- Events that settle a file's disposition: reported skipped, dry-run
preview printed, overwritten, or overwrite failed. -/
def isOutcome (p : String) : Event → Bool
  | Event.skipped q => q = p
  | Event.printed q _ => q = p
  | Event.wrote q _ => q = p
  | Event.writeFailed q => q = p
  | _ => false

/-- The disposition events of `p` in a trace. -/
def outcomeEvents (p : String) (tr : List Event) : List Event := tr.filter (isOutcome p)

/-- An event that attempts to read a target. -/
def isReadAttempt : Event → Bool
  | Event.fileRead _ => true
  | Event.readFailed _ => true
  | _ => false

/-- Number of target-read attempts in a trace. -/
def countReadAttempts (tr : List Event) : Nat := (tr.filter isReadAttempt).length

/-- An issued completion request. -/
def isRequest : Event → Bool
  | Event.requested _ _ => true
  | _ => false

/-- Number of completion requests issued in a trace. -/
def countRequests (tr : List Event) : Nat := (tr.filter isRequest).length

/-- Number of pacing delays of exactly `ms` milliseconds in a trace. -/
def countDelays (ms : Nat) (tr : List Event) : Nat :=
  (tr.filter fun e =>
    match e with
    | Event.delayed m => m = ms
    | _ => false).length

/-- On-disk contents after a trace, starting from `fs0`: each `wrote p t` event
replaces the entire content of `p` with `t`. -/
def finalFs (fs0 : String → Option String) (tr : List Event) : String → Option String :=
  tr.foldl
    (fun fs e =>
      match e with
      | Event.wrote p t => fun q => if q = p then some t else fs q
      | _ => fs)
    fs0

/-- A configuration with two-file non-dry-run processing at 500 ms pacing. -/
def cfg500 : Config :=
  { patterns := ["src/*.js"], ignore := [], dryRun := false,
    model := "gpt-3.5-turbo", intervalMilis := 500 }

/-- A world in which every stage succeeds: two matched files with distinct
transformed outputs, all reads, requests and writes succeeding. -/
def baseWorld : World where
  configArg := some "brush.config.json"
  configResult := some cfg500
  systemPromptResult := some "SYS"
  userPromptResult := some "T"
  globResult := some ["a.js", "b.js"]
  apiKey := some "sk-test"
  readResult := fun p => if p = "a.js" then some "A1" else if p = "b.js" then some "B1" else none
  reqResult := fun p =>
    if p = "a.js" then ReqOutcome.returned [some "A2"] else ReqOutcome.returned [some "B2"]
  writeOk := fun _ => true

/-- The dry-run configuration corresponding to `cfg500`. -/
def cfgDry : Config := { cfg500 with dryRun := true }

/-- `baseWorld` with `dryRun` turned on. -/
def wDry : World := { baseWorld with configResult := some cfgDry }

/-- `baseWorld` with the `OPENAI_API_KEY` environment variable unset. -/
def wNoKey : World := { baseWorld with apiKey := none }

/-- `baseWorld` with patterns matching nothing. -/
def wEmptyGlob : World := { baseWorld with globResult := some [] }

/-- Three matched files whose middle one cannot be read; the others succeed. -/
def wSkip3 : World :=
  { baseWorld with
    globResult := some ["a.js", "b.js", "c.js"]
    readResult := fun p =>
      if p = "a.js" then some "A1" else if p = "c.js" then some "C1" else none
    reqResult := fun p =>
      if p = "a.js" then ReqOutcome.returned [some "A2"]
      else ReqOutcome.returned [some "C2"] }

/-- Dry-run world whose sole attempted file cannot be read. -/
def wDryFail : World :=
  { wDry with readResult := fun _ => none }

/-- `baseWorld` where overwriting the first file fails. -/
def wWriteFail : World :=
  { baseWorld with writeOk := fun p => p ≠ "a.js" }

/-- `baseWorld` where the first file's response has a `null` first message content. -/
def wNull : World :=
  { baseWorld with
    reqResult := fun p =>
      if p = "a.js" then ReqOutcome.returned [none]
      else ReqOutcome.returned [some "B2"] }

end Brush

namespace Brush

example :
    mainRun baseWorld =
      ([Event.globbed,
        Event.fileRead "a.js", Event.requested "a.js" "T", Event.wrote "a.js" "A2",
        Event.delayed 500,
        Event.fileRead "b.js", Event.requested "b.js" "T", Event.wrote "b.js" "B2",
        Event.delayed 500], 0) := by decide

example : jsRender "\x7b\x7bCONTENT\x7d\x7d" "hello" = "hello" := by decide

example : jsRender "a \x7b\x7b CONTENT \x7d\x7d b" "X" = "a X b" := by decide

example : jsRender "no token" "X" = "no token" := by decide

example : jsRender "\x7b\x7bCONTENT\x7d\x7d" "$&" = "\x7b\x7bCONTENT\x7d\x7d" := by decide

theorem getSubstitution_noDollar (m b a : List Char) (repl : List Char)
    (h : '$' ∉ repl) : getSubstitution m b a repl = repl := by
  induction repl with
  | nil => rfl
  | cons c rest ih =>
    have hc : c ≠ '$' := by
      intro hc
      exact h (by simp [hc])
    have h' : '$' ∉ rest := fun hm => h (List.mem_cons_of_mem _ hm)
    rw [getSubstitution.eq_def]
    simp only []
    rw [if_neg hc, ih h']

theorem replGo_congr (rep1 rep2 : List Char → List Char → List Char → List Char)
    (h : ∀ m b a, rep1 m b a = rep2 m b a) (fuel : Nat) :
    ∀ b s : List Char, replGo rep1 fuel b s = replGo rep2 fuel b s := by
  induction fuel with
  | zero => intro b s; rfl
  | succ fuel ih =>
    intro b s
    simp only [replGo]
    cases hm : matchTokenAt s with
    | some mr =>
      obtain ⟨m, r⟩ := mr
      simp [h, ih]
    | none =>
      cases s with
      | nil => rfl
      | cons c cs => simp [ih]

theorem replGo_of_not_hasToken (rep : List Char → List Char → List Char → List Char)
    (s : List Char) (hs : hasToken s = false) :
    ∀ (fuel : Nat) (b : List Char), replGo rep fuel b s = s := by
  induction s with
  | nil => intro fuel b; cases fuel <;> rfl
  | cons c cs ih =>
    intro fuel b
    have h1 : matchTokenAt (c :: cs) = none := by
      cases hmt : matchTokenAt (c :: cs) with
      | none => rfl
      | some mr => simp [hasToken, hmt] at hs
    have h2 : hasToken cs = false := by
      simp [hasToken, h1] at hs
      exact hs
    cases fuel with
    | zero => rfl
    | succ fuel => simp [replGo, h1, ih h2]

theorem jsRender_eq_literal_of_noDollar (tmpl content : String)
    (h : '$' ∉ content.toList) : jsRender tmpl content = literalRender tmpl content := by
  unfold jsRender literalRender
  rw [replGo_congr _ _ (fun m b a => getSubstitution_noDollar m b a _ h)]

theorem jsRender_of_not_hasToken (tmpl content : String)
    (h : hasToken tmpl.toList = false) : jsRender tmpl content = tmpl := by
  unfold jsRender
  rw [replGo_of_not_hasToken _ _ h]
  rfl

theorem isOutcome_path (p : String) (e : Event) (h : isOutcome p e = true) :
    eventPath e = some p := by
  cases e <;> simp_all [isOutcome, eventPath]

theorem isReadAttempt_path (e : Event) (h : isReadAttempt e = true) :
    ∃ p, eventPath e = some p := by
  cases e <;> simp_all [isReadAttempt, eventPath]

theorem two_le_length_of_mem_ne {α : Type} {l : List α} {a b : α}
    (ha : a ∈ l) (hb : b ∈ l) (hne : a ≠ b) : 2 ≤ l.length := by
  induction l with
  | nil => simp at ha
  | cons x xs ih =>
    rcases List.mem_cons.mp ha with rfl | ha'
    · rcases List.mem_cons.mp hb with rfl | hb'
      · exact absurd rfl hne
      · have := List.length_pos_of_mem hb'
        simp only [List.length_cons]
        omega
    · have := List.length_pos_of_mem ha'
      simp only [List.length_cons]
      omega

theorem processFile_shape (w : World) (tmpl f : String) :
    ∃ up,
      (processFile w tmpl f).1 = [Event.readFailed f] ∨
      (processFile w tmpl f).1 = [Event.fileRead f, Event.requested f up] ∨
      (processFile w tmpl f).1 =
        [Event.fileRead f, Event.requested f up, Event.requestFailed f] ∨
      (processFile w tmpl f).1 =
        [Event.fileRead f, Event.requested f up, Event.emptyResponse f] := by
  unfold processFile
  cases hr : w.readResult f with
  | none => exact ⟨"", Or.inl rfl⟩
  | some content =>
    cases hq : w.reqResult f with
    | threw m => exact ⟨jsRender tmpl content, Or.inr (Or.inr (Or.inl rfl))⟩
    | returned choices =>
      cases choices with
      | nil => exact ⟨jsRender tmpl content, Or.inr (Or.inr (Or.inr rfl))⟩
      | cons c cs => exact ⟨jsRender tmpl content, Or.inr (Or.inl rfl)⟩

theorem processFile_path (w : World) (tmpl f : String) :
    ∀ e ∈ (processFile w tmpl f).1, eventPath e = some f := by
  obtain ⟨up, h | h | h | h⟩ := processFile_shape w tmpl f <;> rw [h] <;> intro e he
  · simp at he
    simp [he, eventPath]
  · simp at he
    rcases he with rfl | rfl <;> simp [eventPath]
  · simp at he
    rcases he with rfl | rfl | rfl <;> simp [eventPath]
  · simp at he
    rcases he with rfl | rfl | rfl <;> simp [eventPath]

theorem processFile_read_attempt (w : World) (tmpl f : String) :
    Event.fileRead f ∈ (processFile w tmpl f).1 ∨
      Event.readFailed f ∈ (processFile w tmpl f).1 := by
  obtain ⟨up, h | h | h | h⟩ := processFile_shape w tmpl f <;> rw [h] <;> simp

theorem processFile_counts (w : World) (tmpl f : String) :
    countReadAttempts (processFile w tmpl f).1 = 1 ∧
      countRequests (processFile w tmpl f).1 ≤ 1 := by
  obtain ⟨up, h | h | h | h⟩ := processFile_shape w tmpl f <;>
    simp [countReadAttempts, countRequests, h, isReadAttempt, isRequest, List.filter]

theorem processFile_no_outcome (w : World) (tmpl f p : String) :
    outcomeEvents p (processFile w tmpl f).1 = [] := by
  obtain ⟨up, h | h | h | h⟩ := processFile_shape w tmpl f <;>
    simp [outcomeEvents, h, isOutcome, List.filter]

theorem processFile_no_wrote (w : World) (tmpl f p t : String) :
    Event.wrote p t ∉ (processFile w tmpl f).1 := by
  intro hmem
  have : Event.wrote p t ∈ outcomeEvents p (processFile w tmpl f).1 :=
    List.mem_filter.mpr ⟨hmem, by simp [isOutcome]⟩
  rw [processFile_no_outcome] at this
  simp at this

theorem runLoop_dry_cons_fail (w : World) (tmpl : String) (interval : Nat)
    (fp : String) (rest : List String) (h : (processFile w tmpl fp).2 = none) :
    runLoop w tmpl true interval (fp :: rest) =
      ((processFile w tmpl fp).1 ++ [Event.skipped fp], some 1) := by
  rw [runLoop]
  simp [h]

theorem runLoop_dry_cons_ok (w : World) (tmpl : String) (interval : Nat)
    (fp : String) (rest : List String) (text : String)
    (h : (processFile w tmpl fp).2 = some text) :
    runLoop w tmpl true interval (fp :: rest) =
      ((processFile w tmpl fp).1 ++ [Event.printed fp text], some 0) := by
  rw [runLoop]
  simp [h]

theorem runLoop_nondry_cons_fail (w : World) (tmpl : String) (interval : Nat)
    (fp : String) (rest : List String) (h : (processFile w tmpl fp).2 = none) :
    runLoop w tmpl false interval (fp :: rest) =
      ((processFile w tmpl fp).1 ++ [Event.skipped fp] ++
          (runLoop w tmpl false interval rest).1,
        (runLoop w tmpl false interval rest).2) := by
  rw [runLoop]
  simp [h]

theorem runLoop_nondry_cons_ok (w : World) (tmpl : String) (interval : Nat)
    (fp : String) (rest : List String) (text : String)
    (h : (processFile w tmpl fp).2 = some text) :
    runLoop w tmpl false interval (fp :: rest) =
      ((processFile w tmpl fp).1 ++
          (if w.writeOk fp then [Event.wrote fp text] else [Event.writeFailed fp]) ++
          [Event.delayed interval] ++ (runLoop w tmpl false interval rest).1,
        (runLoop w tmpl false interval rest).2) := by
  rw [runLoop]
  simp [h]

theorem runLoop_nondry_cons_ok_w (w : World) (tmpl : String) (interval : Nat)
    (fp : String) (rest : List String) (text : String)
    (h : (processFile w tmpl fp).2 = some text) (hw : w.writeOk fp = true) :
    runLoop w tmpl false interval (fp :: rest) =
      ((processFile w tmpl fp).1 ++ [Event.wrote fp text] ++
          [Event.delayed interval] ++ (runLoop w tmpl false interval rest).1,
        (runLoop w tmpl false interval rest).2) := by
  rw [runLoop_nondry_cons_ok w tmpl interval fp rest text h, hw]
  simp

theorem runLoop_nondry_cons_ok_wf (w : World) (tmpl : String) (interval : Nat)
    (fp : String) (rest : List String) (text : String)
    (h : (processFile w tmpl fp).2 = some text) (hw : w.writeOk fp = false) :
    runLoop w tmpl false interval (fp :: rest) =
      ((processFile w tmpl fp).1 ++ [Event.writeFailed fp] ++
          [Event.delayed interval] ++ (runLoop w tmpl false interval rest).1,
        (runLoop w tmpl false interval rest).2) := by
  rw [runLoop_nondry_cons_ok w tmpl interval fp rest text h, hw]
  simp

theorem runLoop_nondry_exit (w : World) (tmpl : String) (interval : Nat)
    (l : List String) : (runLoop w tmpl false interval l).2 = none := by
  induction l with
  | nil => rfl
  | cons fp rest ih =>
    cases hres : (processFile w tmpl fp).2 with
    | none => rw [runLoop_nondry_cons_fail w tmpl interval fp rest hres]; exact ih
    | some text => rw [runLoop_nondry_cons_ok w tmpl interval fp rest text hres]; exact ih

theorem runLoop_nondry_append (w : World) (tmpl : String) (interval : Nat)
    (l1 l2 : List String) :
    (runLoop w tmpl false interval (l1 ++ l2)).1 =
      (runLoop w tmpl false interval l1).1 ++ (runLoop w tmpl false interval l2).1 := by
  induction l1 with
  | nil => simp [runLoop]
  | cons fp rest ih =>
    rw [List.cons_append]
    cases hres : (processFile w tmpl fp).2 with
    | none =>
      rw [runLoop_nondry_cons_fail w tmpl interval fp (rest ++ l2) hres,
        runLoop_nondry_cons_fail w tmpl interval fp rest hres]
      simp [ih, List.append_assoc]
    | some text =>
      rw [runLoop_nondry_cons_ok w tmpl interval fp (rest ++ l2) text hres,
        runLoop_nondry_cons_ok w tmpl interval fp rest text hres]
      simp [ih, List.append_assoc]

theorem runLoop_path (w : World) (tmpl : String) (d : Bool) (interval : Nat)
    (l : List String) :
    ∀ e ∈ (runLoop w tmpl d interval l).1, ∀ p, eventPath e = some p → p ∈ l := by
  induction l with
  | nil =>
    intro e he
    simp [runLoop] at he
  | cons fp rest ih =>
    intro e he p hp
    have hfp : eventPath e = some p → e ∈ (processFile w tmpl fp).1 → p ∈ fp :: rest := by
      intro hp' hmem
      have := processFile_path w tmpl fp e hmem
      rw [this] at hp'
      simp at hp'
      simp [hp']
    cases d with
    | true =>
      cases hres : (processFile w tmpl fp).2 with
      | none =>
        rw [runLoop_dry_cons_fail w tmpl interval fp rest hres] at he
        rcases List.mem_append.mp he with hm | hm
        · exact hfp hp hm
        · simp at hm
          subst hm
          simp [eventPath] at hp
          simp [hp]
      | some text =>
        rw [runLoop_dry_cons_ok w tmpl interval fp rest text hres] at he
        rcases List.mem_append.mp he with hm | hm
        · exact hfp hp hm
        · simp at hm
          subst hm
          simp [eventPath] at hp
          simp [hp]
    | false =>
      cases hres : (processFile w tmpl fp).2 with
      | none =>
        rw [runLoop_nondry_cons_fail w tmpl interval fp rest hres] at he
        rcases List.mem_append.mp he with hm | hm
        · rcases List.mem_append.mp hm with hm' | hm'
          · exact hfp hp hm'
          · simp at hm'
            subst hm'
            simp [eventPath] at hp
            simp [hp]
        · exact List.mem_cons_of_mem _ (ih e hm p hp)
      | some text =>
        rw [runLoop_nondry_cons_ok w tmpl interval fp rest text hres] at he
        rcases List.mem_append.mp he with hm | hm
        · rcases List.mem_append.mp hm with hm' | hm'
          · rcases List.mem_append.mp hm' with hm'' | hm''
            · exact hfp hp hm''
            · cases hw : w.writeOk fp <;> rw [hw] at hm'' <;> simp at hm'' <;>
                subst hm'' <;> simp [eventPath] at hp <;> simp [hp]
          · simp at hm'
            subst hm'
            simp [eventPath] at hp
        · exact List.mem_cons_of_mem _ (ih e hm p hp)

theorem runLoop_attempts_nondry (w : World) (tmpl : String) (interval : Nat)
    (l : List String) :
    ∀ g ∈ l, Event.fileRead g ∈ (runLoop w tmpl false interval l).1 ∨
      Event.readFailed g ∈ (runLoop w tmpl false interval l).1 := by
  induction l with
  | nil => intro g hg; simp at hg
  | cons fp rest ih =>
    intro g hg
    rcases List.mem_cons.mp hg with rfl | hg'
    · rcases processFile_read_attempt w tmpl g with hra | hra
      · left
        cases hres : (processFile w tmpl g).2 with
        | none =>
          rw [runLoop_nondry_cons_fail w tmpl interval g rest hres]
          exact List.mem_append.mpr (Or.inl (List.mem_append.mpr (Or.inl hra)))
        | some text =>
          rw [runLoop_nondry_cons_ok w tmpl interval g rest text hres]
          simp only [List.append_assoc, List.mem_append]
          exact Or.inl hra
      · right
        cases hres : (processFile w tmpl g).2 with
        | none =>
          rw [runLoop_nondry_cons_fail w tmpl interval g rest hres]
          exact List.mem_append.mpr (Or.inl (List.mem_append.mpr (Or.inl hra)))
        | some text =>
          rw [runLoop_nondry_cons_ok w tmpl interval g rest text hres]
          simp only [List.append_assoc, List.mem_append]
          exact Or.inl hra
    · rcases ih g hg' with hra | hra
      · left
        cases hres : (processFile w tmpl fp).2 with
        | none =>
          rw [runLoop_nondry_cons_fail w tmpl interval fp rest hres]
          exact List.mem_append.mpr (Or.inr hra)
        | some text =>
          rw [runLoop_nondry_cons_ok w tmpl interval fp rest text hres]
          simp only [List.append_assoc, List.mem_append]
          exact Or.inr (Or.inr (Or.inr hra))
      · right
        cases hres : (processFile w tmpl fp).2 with
        | none =>
          rw [runLoop_nondry_cons_fail w tmpl interval fp rest hres]
          exact List.mem_append.mpr (Or.inr hra)
        | some text =>
          rw [runLoop_nondry_cons_ok w tmpl interval fp rest text hres]
          simp only [List.append_assoc, List.mem_append]
          exact Or.inr (Or.inr (Or.inr hra))

theorem wrote_runLoop (w : World) (tmpl : String) (d : Bool) (interval : Nat)
    (l : List String) :
    ∀ p t, Event.wrote p t ∈ (runLoop w tmpl d interval l).1 →
      (processFile w tmpl p).2 = some t ∧ w.writeOk p = true := by
  induction l with
  | nil =>
    intro p t h
    simp [runLoop] at h
  | cons fp rest ih =>
    intro p t h
    cases d with
    | true =>
      cases hres : (processFile w tmpl fp).2 with
      | none =>
        rw [runLoop_dry_cons_fail w tmpl interval fp rest hres] at h
        rcases List.mem_append.mp h with hm | hm
        · exact absurd hm (processFile_no_wrote w tmpl fp p t)
        · simp at hm
      | some text =>
        rw [runLoop_dry_cons_ok w tmpl interval fp rest text hres] at h
        rcases List.mem_append.mp h with hm | hm
        · exact absurd hm (processFile_no_wrote w tmpl fp p t)
        · simp at hm
    | false =>
      cases hres : (processFile w tmpl fp).2 with
      | none =>
        rw [runLoop_nondry_cons_fail w tmpl interval fp rest hres] at h
        rcases List.mem_append.mp h with hm | hm
        · rcases List.mem_append.mp hm with hm' | hm'
          · exact absurd hm' (processFile_no_wrote w tmpl fp p t)
          · simp at hm'
        · exact ih p t hm
      | some text =>
        rw [runLoop_nondry_cons_ok w tmpl interval fp rest text hres] at h
        rcases List.mem_append.mp h with hm | hm
        · rcases List.mem_append.mp hm with hm' | hm'
          · rcases List.mem_append.mp hm' with hm'' | hm''
            · exact absurd hm'' (processFile_no_wrote w tmpl fp p t)
            · cases hw : w.writeOk fp <;> rw [hw] at hm'' <;> simp at hm''
              obtain ⟨rfl, rfl⟩ := hm''
              exact ⟨hres, hw⟩
          · simp at hm'
        · exact ih p t hm

theorem mainRun_stages (w : World) (a : String) (cfg : Config) (sp tmpl : String)
    (entries : List String) (k : String)
    (h1 : w.configArg = some a) (h2 : w.configResult = some cfg)
    (h3 : cfg.patterns ≠ []) (h4 : w.systemPromptResult = some sp)
    (h5 : w.userPromptResult = some tmpl) (h6 : w.globResult = some entries)
    (h7 : w.apiKey = some k) (h8 : entries ≠ []) :
    mainRun w =
      (Event.globbed :: (runLoop w tmpl cfg.dryRun cfg.intervalMilis entries).1,
        (runLoop w tmpl cfg.dryRun cfg.intervalMilis entries).2.getD 0) := by
  unfold mainRun
  rw [h1, h2, h4, h5, h6, h7]
  simp [List.isEmpty_iff, h3, h8]

theorem mainRun_noKey (w : World) (a : String) (cfg : Config) (sp tmpl : String)
    (entries : List String)
    (h1 : w.configArg = some a) (h2 : w.configResult = some cfg)
    (h3 : cfg.patterns ≠ []) (h4 : w.systemPromptResult = some sp)
    (h5 : w.userPromptResult = some tmpl) (h6 : w.globResult = some entries)
    (h7 : w.apiKey = none) (h8 : entries ≠ []) :
    mainRun w = ([Event.globbed], 1) := by
  unfold mainRun
  rw [h1, h2, h4, h5, h6, h7]
  simp [List.isEmpty_iff, h3, h8]

theorem mainRun_zeroMatch (w : World) (a : String) (cfg : Config) (sp tmpl : String)
    (h1 : w.configArg = some a) (h2 : w.configResult = some cfg)
    (h3 : cfg.patterns ≠ []) (h4 : w.systemPromptResult = some sp)
    (h5 : w.userPromptResult = some tmpl) (h6 : w.globResult = some []) :
    mainRun w = ([Event.globbed], 0) := by
  unfold mainRun
  rw [h1, h2, h4, h5, h6]
  simp [List.isEmpty_iff, h3]

theorem runLoop_not_mem (w : World) (tmpl : String) (d : Bool) (interval : Nat)
    (l : List String) (f : String) (hf : f ∉ l) :
    outcomeEvents f (runLoop w tmpl d interval l).1 = [] ∧
      Event.fileRead f ∉ (runLoop w tmpl d interval l).1 ∧
      Event.readFailed f ∉ (runLoop w tmpl d interval l).1 := by
  refine ⟨List.filter_eq_nil_iff.mpr ?_, ?_, ?_⟩
  · intro e he hiso
    exact hf (runLoop_path w tmpl d interval l e he f (isOutcome_path f e hiso))
  · intro hm
    exact hf (runLoop_path w tmpl d interval l _ hm f rfl)
  · intro hm
    exact hf (runLoop_path w tmpl d interval l _ hm f rfl)

theorem finalFs_append (fs0 : String → Option String) (tr1 tr2 : List Event) :
    finalFs fs0 (tr1 ++ tr2) = finalFs (finalFs fs0 tr1) tr2 := by
  unfold finalFs
  exact List.foldl_append ..

theorem finalFs_no_wrote (fs0 : String → Option String) (tr : List Event) (p : String)
    (h : ∀ t, Event.wrote p t ∉ tr) : finalFs fs0 tr p = fs0 p := by
  induction tr generalizing fs0 with
  | nil => rfl
  | cons e es ih =>
    have h' : ∀ t, Event.wrote p t ∉ es := fun t hm => h t (List.mem_cons_of_mem _ hm)
    cases e with
    | wrote q t =>
      have hq : q ≠ p := by
        intro hq
        exact h t (by simp [hq])
      rw [show finalFs fs0 (Event.wrote q t :: es) =
          finalFs (fun r => if r = q then some t else fs0 r) es from rfl, ih _ h']
      simp [Ne.symm hq]
    | globbed => exact ih fs0 h'
    | fileRead q => exact ih fs0 h'
    | readFailed q => exact ih fs0 h'
    | requested q u => exact ih fs0 h'
    | requestFailed q => exact ih fs0 h'
    | emptyResponse q => exact ih fs0 h'
    | skipped q => exact ih fs0 h'
    | printed q u => exact ih fs0 h'
    | writeFailed q => exact ih fs0 h'
    | delayed m => exact ih fs0 h'

theorem outcomeEvents_append (p : String) (t1 t2 : List Event) :
    outcomeEvents p (t1 ++ t2) = outcomeEvents p t1 ++ outcomeEvents p t2 := by
  simp [outcomeEvents, List.filter_append]

theorem fileRead_mem_processFile (w : World) (tmpl fp f : String)
    (h : Event.fileRead f ∈ (processFile w tmpl fp).1) : f = fp := by
  have := processFile_path w tmpl fp _ h
  simpa [eventPath] using this

theorem readFailed_mem_processFile (w : World) (tmpl fp f : String)
    (h : Event.readFailed f ∈ (processFile w tmpl fp).1) : f = fp := by
  have := processFile_path w tmpl fp _ h
  simpa [eventPath] using this

theorem runLoop_outcome_count (w : World) (tmpl : String) (d : Bool) (interval : Nat)
    (l : List String) : l.Nodup → ∀ f ∈ l,
    (outcomeEvents f (runLoop w tmpl d interval l).1).length =
      (if Event.fileRead f ∈ (runLoop w tmpl d interval l).1 ∨
          Event.readFailed f ∈ (runLoop w tmpl d interval l).1 then 1 else 0) := by
  induction l with
  | nil =>
    intro _ f hf
    simp at hf
  | cons fp rest ih =>
    intro hnd f hf
    have hfp_notin : fp ∉ rest := (List.nodup_cons.mp hnd).1
    have hnd' : rest.Nodup := (List.nodup_cons.mp hnd).2
    rcases List.mem_cons.mp hf with rfl | hfr
    · -- the head file: it is attempted and gets exactly one disposition event
      have hatt := processFile_read_attempt w tmpl f
      have hnm := runLoop_not_mem w tmpl false interval rest f hfp_notin
      cases d with
      | true =>
        cases hres : (processFile w tmpl f).2 with
        | none =>
          rw [runLoop_dry_cons_fail w tmpl interval f rest hres]
          have hc : Event.fileRead f ∈ (processFile w tmpl f).1 ++ [Event.skipped f] ∨
              Event.readFailed f ∈ (processFile w tmpl f).1 ++ [Event.skipped f] := by
            rcases hatt with h | h
            · exact Or.inl (List.mem_append.mpr (Or.inl h))
            · exact Or.inr (List.mem_append.mpr (Or.inl h))
          rw [if_pos hc, outcomeEvents_append, processFile_no_outcome]
          simp [outcomeEvents, List.filter, isOutcome]
        | some text =>
          rw [runLoop_dry_cons_ok w tmpl interval f rest text hres]
          have hc : Event.fileRead f ∈ (processFile w tmpl f).1 ++ [Event.printed f text] ∨
              Event.readFailed f ∈ (processFile w tmpl f).1 ++ [Event.printed f text] := by
            rcases hatt with h | h
            · exact Or.inl (List.mem_append.mpr (Or.inl h))
            · exact Or.inr (List.mem_append.mpr (Or.inl h))
          rw [if_pos hc, outcomeEvents_append, processFile_no_outcome]
          simp [outcomeEvents, List.filter, isOutcome]
      | false =>
        cases hres : (processFile w tmpl f).2 with
        | none =>
          rw [runLoop_nondry_cons_fail w tmpl interval f rest hres]
          have hc : Event.fileRead f ∈ (processFile w tmpl f).1 ++ [Event.skipped f] ++
                (runLoop w tmpl false interval rest).1 ∨
              Event.readFailed f ∈ (processFile w tmpl f).1 ++ [Event.skipped f] ++
                (runLoop w tmpl false interval rest).1 := by
            rcases hatt with h | h
            · exact Or.inl (List.mem_append.mpr (Or.inl (List.mem_append.mpr (Or.inl h))))
            · exact Or.inr (List.mem_append.mpr (Or.inl (List.mem_append.mpr (Or.inl h))))
          rw [if_pos hc, outcomeEvents_append, outcomeEvents_append,
            processFile_no_outcome, hnm.1]
          simp [outcomeEvents, List.filter, isOutcome]
        | some text =>
          cases hw : w.writeOk f with
          | true =>
            rw [runLoop_nondry_cons_ok_w w tmpl interval f rest text hres hw]
            have hc : Event.fileRead f ∈ (processFile w tmpl f).1 ++ [Event.wrote f text] ++
                  [Event.delayed interval] ++ (runLoop w tmpl false interval rest).1 ∨
                Event.readFailed f ∈ (processFile w tmpl f).1 ++ [Event.wrote f text] ++
                  [Event.delayed interval] ++ (runLoop w tmpl false interval rest).1 := by
              rcases hatt with h | h
              · exact Or.inl (List.mem_append.mpr (Or.inl (List.mem_append.mpr
                  (Or.inl (List.mem_append.mpr (Or.inl h))))))
              · exact Or.inr (List.mem_append.mpr (Or.inl (List.mem_append.mpr
                  (Or.inl (List.mem_append.mpr (Or.inl h))))))
            rw [if_pos hc, outcomeEvents_append, outcomeEvents_append, outcomeEvents_append,
              processFile_no_outcome, hnm.1]
            simp [outcomeEvents, List.filter, isOutcome]
          | false =>
            rw [runLoop_nondry_cons_ok_wf w tmpl interval f rest text hres hw]
            have hc : Event.fileRead f ∈ (processFile w tmpl f).1 ++ [Event.writeFailed f] ++
                  [Event.delayed interval] ++ (runLoop w tmpl false interval rest).1 ∨
                Event.readFailed f ∈ (processFile w tmpl f).1 ++ [Event.writeFailed f] ++
                  [Event.delayed interval] ++ (runLoop w tmpl false interval rest).1 := by
              rcases hatt with h | h
              · exact Or.inl (List.mem_append.mpr (Or.inl (List.mem_append.mpr
                  (Or.inl (List.mem_append.mpr (Or.inl h))))))
              · exact Or.inr (List.mem_append.mpr (Or.inl (List.mem_append.mpr
                  (Or.inl (List.mem_append.mpr (Or.inl h))))))
            rw [if_pos hc, outcomeEvents_append, outcomeEvents_append, outcomeEvents_append,
              processFile_no_outcome, hnm.1]
            simp [outcomeEvents, List.filter, isOutcome]
    · -- a later file: the head step contributes none of its events
      have hne : f ≠ fp := fun h => hfp_notin (h ▸ hfr)
      have hihr := ih hnd' f hfr
      have hpfo := processFile_no_outcome w tmpl fp f
      have hpfread : Event.fileRead f ∉ (processFile w tmpl fp).1 :=
        fun h => hne (fileRead_mem_processFile w tmpl fp f h)
      have hpfreadf : Event.readFailed f ∉ (processFile w tmpl fp).1 :=
        fun h => hne (readFailed_mem_processFile w tmpl fp f h)
      have hskip : outcomeEvents f [Event.skipped fp] = [] := by
        simp [outcomeEvents, List.filter, isOutcome, Ne.symm hne]
      cases d with
      | true =>
        cases hres : (processFile w tmpl fp).2 with
        | none =>
          rw [runLoop_dry_cons_fail w tmpl interval fp rest hres]
          have hc : ¬(Event.fileRead f ∈ (processFile w tmpl fp).1 ++ [Event.skipped fp] ∨
              Event.readFailed f ∈ (processFile w tmpl fp).1 ++ [Event.skipped fp]) := by
            intro hcc
            rcases hcc with h | h <;> rcases List.mem_append.mp h with h' | h'
            · exact hpfread h'
            · simp at h'
            · exact hpfreadf h'
            · simp at h'
          rw [if_neg hc, outcomeEvents_append, hpfo, hskip]
          simp
        | some text =>
          rw [runLoop_dry_cons_ok w tmpl interval fp rest text hres]
          have hc : ¬(Event.fileRead f ∈ (processFile w tmpl fp).1 ++ [Event.printed fp text] ∨
              Event.readFailed f ∈ (processFile w tmpl fp).1 ++ [Event.printed fp text]) := by
            intro hcc
            rcases hcc with h | h <;> rcases List.mem_append.mp h with h' | h'
            · exact hpfread h'
            · simp at h'
            · exact hpfreadf h'
            · simp at h'
          rw [if_neg hc, outcomeEvents_append, hpfo]
          simp [outcomeEvents, List.filter, isOutcome, Ne.symm hne]
      | false =>
        cases hres : (processFile w tmpl fp).2 with
        | none =>
          rw [runLoop_nondry_cons_fail w tmpl interval fp rest hres,
            outcomeEvents_append, outcomeEvents_append, hpfo, hskip]
          simp only [List.nil_append]
          rw [hihr]
          by_cases hrec : Event.fileRead f ∈ (runLoop w tmpl false interval rest).1 ∨
              Event.readFailed f ∈ (runLoop w tmpl false interval rest).1
          · have hc : Event.fileRead f ∈ (processFile w tmpl fp).1 ++ [Event.skipped fp] ++
                  (runLoop w tmpl false interval rest).1 ∨
                Event.readFailed f ∈ (processFile w tmpl fp).1 ++ [Event.skipped fp] ++
                  (runLoop w tmpl false interval rest).1 := by
              rcases hrec with h | h
              · exact Or.inl (List.mem_append.mpr (Or.inr h))
              · exact Or.inr (List.mem_append.mpr (Or.inr h))
            rw [if_pos hrec, if_pos hc]
          · have hc : ¬(Event.fileRead f ∈ (processFile w tmpl fp).1 ++ [Event.skipped fp] ++
                  (runLoop w tmpl false interval rest).1 ∨
                Event.readFailed f ∈ (processFile w tmpl fp).1 ++ [Event.skipped fp] ++
                  (runLoop w tmpl false interval rest).1) := by
              intro hcc
              apply hrec
              rcases hcc with h | h <;> rcases List.mem_append.mp h with h' | h'
              · rcases List.mem_append.mp h' with h2 | h2
                · exact absurd h2 hpfread
                · simp at h2
              · exact Or.inl h'
              · rcases List.mem_append.mp h' with h2 | h2
                · exact absurd h2 hpfreadf
                · simp at h2
              · exact Or.inr h'
            rw [if_neg hrec, if_neg hc]
        | some text =>
          cases hw : w.writeOk fp with
          | true =>
            have hwev : outcomeEvents f [Event.wrote fp text] = [] := by
              simp [outcomeEvents, List.filter, isOutcome, Ne.symm hne]
            have hdel : outcomeEvents f [Event.delayed interval] = [] := by
              simp [outcomeEvents, List.filter, isOutcome]
            rw [runLoop_nondry_cons_ok_w w tmpl interval fp rest text hres hw,
              outcomeEvents_append, outcomeEvents_append, outcomeEvents_append,
              hpfo, hwev, hdel]
            simp only [List.nil_append]
            rw [hihr]
            by_cases hrec : Event.fileRead f ∈ (runLoop w tmpl false interval rest).1 ∨
                Event.readFailed f ∈ (runLoop w tmpl false interval rest).1
            · have hc : Event.fileRead f ∈ (processFile w tmpl fp).1 ++ [Event.wrote fp text] ++
                    [Event.delayed interval] ++ (runLoop w tmpl false interval rest).1 ∨
                  Event.readFailed f ∈ (processFile w tmpl fp).1 ++ [Event.wrote fp text] ++
                    [Event.delayed interval] ++ (runLoop w tmpl false interval rest).1 := by
                rcases hrec with h | h
                · exact Or.inl (List.mem_append.mpr (Or.inr h))
                · exact Or.inr (List.mem_append.mpr (Or.inr h))
              rw [if_pos hrec, if_pos hc]
            · have hc : ¬(Event.fileRead f ∈ (processFile w tmpl fp).1 ++
                    [Event.wrote fp text] ++ [Event.delayed interval] ++
                    (runLoop w tmpl false interval rest).1 ∨
                  Event.readFailed f ∈ (processFile w tmpl fp).1 ++
                    [Event.wrote fp text] ++ [Event.delayed interval] ++
                    (runLoop w tmpl false interval rest).1) := by
                intro hcc
                apply hrec
                rcases hcc with h | h <;> rcases List.mem_append.mp h with h' | h'
                · rcases List.mem_append.mp h' with h2 | h2
                  · rcases List.mem_append.mp h2 with h3 | h3
                    · exact absurd h3 hpfread
                    · simp at h3
                  · simp at h2
                · exact Or.inl h'
                · rcases List.mem_append.mp h' with h2 | h2
                  · rcases List.mem_append.mp h2 with h3 | h3
                    · exact absurd h3 hpfreadf
                    · simp at h3
                  · simp at h2
                · exact Or.inr h'
              rw [if_neg hrec, if_neg hc]
          | false =>
            have hwev : outcomeEvents f [Event.writeFailed fp] = [] := by
              simp [outcomeEvents, List.filter, isOutcome, Ne.symm hne]
            have hdel : outcomeEvents f [Event.delayed interval] = [] := by
              simp [outcomeEvents, List.filter, isOutcome]
            rw [runLoop_nondry_cons_ok_wf w tmpl interval fp rest text hres hw,
              outcomeEvents_append, outcomeEvents_append, outcomeEvents_append,
              hpfo, hwev, hdel]
            simp only [List.nil_append]
            rw [hihr]
            by_cases hrec : Event.fileRead f ∈ (runLoop w tmpl false interval rest).1 ∨
                Event.readFailed f ∈ (runLoop w tmpl false interval rest).1
            · have hc : Event.fileRead f ∈ (processFile w tmpl fp).1 ++
                    [Event.writeFailed fp] ++ [Event.delayed interval] ++
                    (runLoop w tmpl false interval rest).1 ∨
                  Event.readFailed f ∈ (processFile w tmpl fp).1 ++
                    [Event.writeFailed fp] ++ [Event.delayed interval] ++
                    (runLoop w tmpl false interval rest).1 := by
                rcases hrec with h | h
                · exact Or.inl (List.mem_append.mpr (Or.inr h))
                · exact Or.inr (List.mem_append.mpr (Or.inr h))
              rw [if_pos hrec, if_pos hc]
            · have hc : ¬(Event.fileRead f ∈ (processFile w tmpl fp).1 ++
                    [Event.writeFailed fp] ++ [Event.delayed interval] ++
                    (runLoop w tmpl false interval rest).1 ∨
                  Event.readFailed f ∈ (processFile w tmpl fp).1 ++
                    [Event.writeFailed fp] ++ [Event.delayed interval] ++
                    (runLoop w tmpl false interval rest).1) := by
                intro hcc
                apply hrec
                rcases hcc with h | h <;> rcases List.mem_append.mp h with h' | h'
                · rcases List.mem_append.mp h' with h2 | h2
                  · rcases List.mem_append.mp h2 with h3 | h3
                    · exact absurd h3 hpfread
                    · simp at h3
                  · simp at h2
                · exact Or.inl h'
                · rcases List.mem_append.mp h' with h2 | h2
                  · rcases List.mem_append.mp h2 with h3 | h3
                    · exact absurd h3 hpfreadf
                    · simp at h3
                  · simp at h2
                · exact Or.inr h'
              rw [if_neg hrec, if_neg hc]

theorem countReadAttempts_append (t1 t2 : List Event) :
    countReadAttempts (t1 ++ t2) = countReadAttempts t1 + countReadAttempts t2 := by
  simp [countReadAttempts, List.filter_append]

theorem countRequests_append (t1 t2 : List Event) :
    countRequests (t1 ++ t2) = countRequests t1 + countRequests t2 := by
  simp [countRequests, List.filter_append]

theorem countReadAttempts_globbed_cons (tr : List Event) :
    countReadAttempts (Event.globbed :: tr) = countReadAttempts tr := by
  simp [countReadAttempts, List.filter, isReadAttempt]

theorem countRequests_globbed_cons (tr : List Event) :
    countRequests (Event.globbed :: tr) = countRequests tr := by
  simp [countRequests, List.filter, isRequest]

theorem countReadAttempts_skip (p : String) :
    countReadAttempts [Event.skipped p] = 0 := by
  simp [countReadAttempts, List.filter, isReadAttempt]

theorem countReadAttempts_printed (p t : String) :
    countReadAttempts [Event.printed p t] = 0 := by
  simp [countReadAttempts, List.filter, isReadAttempt]

theorem countRequests_skip (p : String) :
    countRequests [Event.skipped p] = 0 := by
  simp [countRequests, List.filter, isRequest]

theorem countRequests_printed (p t : String) :
    countRequests [Event.printed p t] = 0 := by
  simp [countRequests, List.filter, isRequest]

theorem finalFs_globbed_cons (fs0 : String → Option String) (tr : List Event) :
    finalFs fs0 (Event.globbed :: tr) = finalFs fs0 tr := rfl

/-- C1 (code-bug evidence): in a non-dry run over two matched files where both
transforms succeed, the program performs TWO pacing delays of `intervalMilis`,
the second immediately after the final file's successful commit.  The claim
(and the source's own comment on the `setTimeout` line) require exactly K−1 = 1
delays with none after the last file. -/
theorem c1_pacing_delays_after_last_file :
    countDelays 500 (mainRun baseWorld).1 = 2 ∧
    (mainRun baseWorld).1 =
      [Event.globbed,
        Event.fileRead "a.js", Event.requested "a.js" "T", Event.wrote "a.js" "A2",
        Event.delayed 500,
        Event.fileRead "b.js", Event.requested "b.js" "T", Event.wrote "b.js" "B2",
        Event.delayed 500] ∧
    (mainRun baseWorld).2 = 0 := by decide

/-- C2 (counterexample): with the credential missing but at least one file
matched, the run does abort with exit code 1 — but only AFTER pattern
resolution has been performed, refuting "performs no pattern resolution" and
"detected before any file matching begins". -/
theorem c2_credential_after_resolution_counterexample :
    (mainRun wNoKey).2 = 1 ∧ Event.globbed ∈ (mainRun wNoKey).1 := by decide

/-- C2 (amended): a run with a missing credential issues zero completion
requests and reads no target file, and — provided config, prompts and glob all
succeeded with at least one match — aborts with exit code 1; the check happens
after pattern resolution, not before it. -/
theorem c2_missing_credential_amended (w : World) (a : String) (cfg : Config)
    (sp tmpl : String) (entries : List String)
    (h1 : w.configArg = some a) (h2 : w.configResult = some cfg)
    (h3 : cfg.patterns ≠ []) (h4 : w.systemPromptResult = some sp)
    (h5 : w.userPromptResult = some tmpl) (h6 : w.globResult = some entries)
    (h8 : entries ≠ []) (hk : w.apiKey = none) :
    (mainRun w).2 = 1 ∧ countRequests (mainRun w).1 = 0 ∧
      countReadAttempts (mainRun w).1 = 0 := by
  rw [mainRun_noKey w a cfg sp tmpl entries h1 h2 h3 h4 h5 h6 hk h8]
  exact ⟨rfl, rfl, rfl⟩

/-- C2 witness. -/
theorem c2_missing_credential_amended_witness :
    (mainRun wNoKey).2 = 1 ∧ countRequests (mainRun wNoKey).1 = 0 ∧
      countReadAttempts (mainRun wNoKey).1 = 0 :=
  c2_missing_credential_amended wNoKey "brush.config.json" cfg500 "SYS" "T"
    ["a.js", "b.js"] rfl rfl (by decide) rfl rfl rfl (by decide) rfl

/-- C4 (counterexample): rendering the template `\x7b\x7bCONTENT\x7d\x7d`
(one token, N = 1) with the content `$&` (zero token instances) does not insert
the content literally: JavaScript dollar-escape handling reproduces the matched
token, so the result contains the content 0 times (not 1) and still contains
1 token (not 0). -/
theorem c4_literal_replacement_counterexample :
    jsRender "\x7b\x7bCONTENT\x7d\x7d" "$&" = "\x7b\x7bCONTENT\x7d\x7d" ∧
    countTokens "\x7b\x7bCONTENT\x7d\x7d" = 1 ∧
    countOccur "$&".toList "\x7b\x7bCONTENT\x7d\x7d".toList = 0 ∧
    countOccur "$&".toList (jsRender "\x7b\x7bCONTENT\x7d\x7d" "$&").toList = 0 ∧
    countTokens (jsRender "\x7b\x7bCONTENT\x7d\x7d" "$&") = 1 := by decide

/-- C4 (amended): the renderer is a total pure function; a template with no
token is returned unchanged, and whenever the content contains no dollar sign
the render coincides with literal replacement of every token occurrence by the
content (the comparison definition `literalRender`).  For content containing
dollar escapes the replacement is not literal. -/
theorem c4_render_amended (tmpl content : String) :
    (hasToken tmpl.toList = false → jsRender tmpl content = tmpl) ∧
    ('$' ∉ content.toList → jsRender tmpl content = literalRender tmpl content) :=
  ⟨fun h => jsRender_of_not_hasToken tmpl content h,
   fun h => jsRender_eq_literal_of_noDollar tmpl content h⟩

/-- C4 witness. -/
theorem c4_render_amended_witness :
    jsRender "abc" "$x" = "abc" ∧
      jsRender "a \x7b\x7b CONTENT \x7d\x7d b" "Q2" =
        literalRender "a \x7b\x7b CONTENT \x7d\x7d b" "Q2" :=
  ⟨(c4_render_amended "abc" "$x").1 (by decide),
   (c4_render_amended "a \x7b\x7b CONTENT \x7d\x7d b" "Q2").2 (by decide)⟩

/-- C7: when the patterns match no files, the run exits 0 having issued zero
completion requests; an empty match set is not a failure. -/
theorem c7_zero_match_success (w : World) (a : String) (cfg : Config)
    (sp tmpl : String)
    (h1 : w.configArg = some a) (h2 : w.configResult = some cfg)
    (h3 : cfg.patterns ≠ []) (h4 : w.systemPromptResult = some sp)
    (h5 : w.userPromptResult = some tmpl) (h6 : w.globResult = some []) :
    (mainRun w).2 = 0 ∧ countRequests (mainRun w).1 = 0 := by
  rw [mainRun_zeroMatch w a cfg sp tmpl h1 h2 h3 h4 h5 h6]
  exact ⟨rfl, rfl⟩

/-- C7 witness. -/
theorem c7_zero_match_success_witness :
    (mainRun wEmptyGlob).2 = 0 ∧ countRequests (mainRun wEmptyGlob).1 = 0 :=
  c7_zero_match_success wEmptyGlob "brush.config.json" cfg500 "SYS" "T"
    rfl rfl (by decide) rfl rfl rfl

/-- C3: in dry-run mode with at least one matched file, exactly one target read
is attempted, at most one completion request is issued, no file content on disk
is modified, and if the first (sole) file succeeds the run exits 0 after
printing the returned text, never advancing past the first target. -/
theorem c3_dry_run_single_file (w : World) (a : String) (cfg : Config)
    (sp tmpl k e : String) (es : List String)
    (h1 : w.configArg = some a) (h2 : w.configResult = some cfg)
    (h3 : cfg.patterns ≠ []) (h4 : w.systemPromptResult = some sp)
    (h5 : w.userPromptResult = some tmpl) (h6 : w.globResult = some (e :: es))
    (h7 : w.apiKey = some k) (hdry : cfg.dryRun = true) :
    countReadAttempts (mainRun w).1 = 1 ∧
    countRequests (mainRun w).1 ≤ 1 ∧
    (∀ fs0 : String → Option String, finalFs fs0 (mainRun w).1 = fs0) ∧
    (∀ text, (processFile w tmpl e).2 = some text →
      (mainRun w).2 = 0 ∧ Event.printed e text ∈ (mainRun w).1) := by
  have hm := mainRun_stages w a cfg sp tmpl (e :: es) k h1 h2 h3 h4 h5 h6 h7 (by simp)
  rw [hdry] at hm
  have ht1 : (mainRun w).1 =
      Event.globbed :: (runLoop w tmpl true cfg.intervalMilis (e :: es)).1 := by rw [hm]
  have ht2 : (mainRun w).2 =
      (runLoop w tmpl true cfg.intervalMilis (e :: es)).2.getD 0 := by rw [hm]
  rw [ht1, ht2]
  cases hres : (processFile w tmpl e).2 with
  | none =>
    rw [runLoop_dry_cons_fail w tmpl cfg.intervalMilis e es hres]
    refine ⟨?_, ?_, ?_, ?_⟩
    · rw [countReadAttempts_globbed_cons, countReadAttempts_append,
        (processFile_counts w tmpl e).1, countReadAttempts_skip]
    · rw [countRequests_globbed_cons, countRequests_append, countRequests_skip]
      have := (processFile_counts w tmpl e).2
      omega
    · intro fs0
      funext q
      rw [finalFs_globbed_cons]
      apply finalFs_no_wrote
      intro t hmem
      rcases List.mem_append.mp hmem with hm' | hm'
      · exact processFile_no_wrote w tmpl e q t hm'
      · simp at hm'
    · intro text htext
      exact Option.noConfusion htext
  | some text =>
    rw [runLoop_dry_cons_ok w tmpl cfg.intervalMilis e es text hres]
    refine ⟨?_, ?_, ?_, ?_⟩
    · rw [countReadAttempts_globbed_cons, countReadAttempts_append,
        (processFile_counts w tmpl e).1, countReadAttempts_printed]
    · rw [countRequests_globbed_cons, countRequests_append, countRequests_printed]
      have := (processFile_counts w tmpl e).2
      omega
    · intro fs0
      funext q
      rw [finalFs_globbed_cons]
      apply finalFs_no_wrote
      intro t hmem
      rcases List.mem_append.mp hmem with hm' | hm'
      · exact processFile_no_wrote w tmpl e q t hm'
      · simp at hm'
    · intro text' htext
      obtain rfl : text = text' := Option.some.inj htext
      refine ⟨rfl, ?_⟩
      simp

/-- C3 witness. -/
theorem c3_dry_run_single_file_witness :
    countReadAttempts (mainRun wDry).1 = 1 ∧ countRequests (mainRun wDry).1 ≤ 1 :=
  ⟨(c3_dry_run_single_file wDry "brush.config.json" cfgDry "SYS" "T" "sk-test"
      "a.js" ["b.js"] rfl rfl (by decide) rfl rfl rfl rfl rfl).1,
   (c3_dry_run_single_file wDry "brush.config.json" cfgDry "SYS" "T" "sk-test"
      "a.js" ["b.js"] rfl rfl (by decide) rfl rfl rfl rfl rfl).2.1⟩

/-- C5: in non-dry-run mode, when a file anywhere in the matched list fails at
the Reading or Requesting stage (`processFile` returns `null`), every later
file is still attempted and the run exits 0. -/
theorem c5_skip_does_not_halt (w : World) (a : String) (cfg : Config)
    (sp tmpl k f : String) (pre post : List String)
    (h1 : w.configArg = some a) (h2 : w.configResult = some cfg)
    (h3 : cfg.patterns ≠ []) (h4 : w.systemPromptResult = some sp)
    (h5 : w.userPromptResult = some tmpl)
    (h6 : w.globResult = some (pre ++ f :: post))
    (h7 : w.apiKey = some k) (hdry : cfg.dryRun = false)
    (hfail : (processFile w tmpl f).2 = none) :
    (mainRun w).2 = 0 ∧
      ∀ g ∈ post, Event.fileRead g ∈ (mainRun w).1 ∨
        Event.readFailed g ∈ (mainRun w).1 := by
  have hm := mainRun_stages w a cfg sp tmpl (pre ++ f :: post) k h1 h2 h3 h4 h5 h6 h7
    (by simp)
  rw [hdry] at hm
  have ht1 : (mainRun w).1 =
      Event.globbed :: (runLoop w tmpl false cfg.intervalMilis (pre ++ f :: post)).1 := by
    rw [hm]
  have ht2 : (mainRun w).2 =
      (runLoop w tmpl false cfg.intervalMilis (pre ++ f :: post)).2.getD 0 := by rw [hm]
  constructor
  · rw [ht2, runLoop_nondry_exit]
    rfl
  · intro g hg
    have hmem : g ∈ pre ++ f :: post :=
      List.mem_append.mpr (Or.inr (List.mem_cons_of_mem f hg))
    rw [ht1]
    rcases runLoop_attempts_nondry w tmpl cfg.intervalMilis (pre ++ f :: post) g hmem
      with h | h
    · exact Or.inl (List.mem_cons_of_mem _ h)
    · exact Or.inr (List.mem_cons_of_mem _ h)

/-- C5 witness: three matched files, middle one unreadable; the third is still
attempted and the run exits 0. -/
theorem c5_skip_does_not_halt_witness :
    (mainRun wSkip3).2 = 0 ∧
      (Event.fileRead "c.js" ∈ (mainRun wSkip3).1 ∨
        Event.readFailed "c.js" ∈ (mainRun wSkip3).1) :=
  ⟨(c5_skip_does_not_halt wSkip3 "brush.config.json" cfg500 "SYS" "T" "sk-test"
      "b.js" ["a.js"] ["c.js"] rfl rfl (by decide) rfl rfl rfl rfl rfl rfl).1,
   (c5_skip_does_not_halt wSkip3 "brush.config.json" cfg500 "SYS" "T" "sk-test"
      "b.js" ["a.js"] ["c.js"] rfl rfl (by decide) rfl rfl rfl rfl rfl rfl).2
     "c.js" (by decide)⟩

/-- C6: in dry-run mode, when the sole attempted (first) file fails — read
failure, request failure, or empty/usable-less response — the run exits 1
without attempting any later file. -/
theorem c6_dry_run_failure_aborts (w : World) (a : String) (cfg : Config)
    (sp tmpl k e : String) (es : List String)
    (h1 : w.configArg = some a) (h2 : w.configResult = some cfg)
    (h3 : cfg.patterns ≠ []) (h4 : w.systemPromptResult = some sp)
    (h5 : w.userPromptResult = some tmpl) (h6 : w.globResult = some (e :: es))
    (h7 : w.apiKey = some k) (hdry : cfg.dryRun = true)
    (hfail : (processFile w tmpl e).2 = none) :
    (mainRun w).2 = 1 ∧ countReadAttempts (mainRun w).1 = 1 := by
  have hm := mainRun_stages w a cfg sp tmpl (e :: es) k h1 h2 h3 h4 h5 h6 h7 (by simp)
  rw [hdry] at hm
  have ht1 : (mainRun w).1 =
      Event.globbed :: (runLoop w tmpl true cfg.intervalMilis (e :: es)).1 := by rw [hm]
  have ht2 : (mainRun w).2 =
      (runLoop w tmpl true cfg.intervalMilis (e :: es)).2.getD 0 := by rw [hm]
  rw [ht1, ht2, runLoop_dry_cons_fail w tmpl cfg.intervalMilis e es hfail]
  refine ⟨rfl, ?_⟩
  rw [countReadAttempts_globbed_cons, countReadAttempts_append,
    (processFile_counts w tmpl e).1, countReadAttempts_skip]

/-- C6 witness. -/
theorem c6_dry_run_failure_aborts_witness :
    (mainRun wDryFail).2 = 1 ∧ countReadAttempts (mainRun wDryFail).1 = 1 :=
  c6_dry_run_failure_aborts wDryFail "brush.config.json" cfgDry "SYS" "T" "sk-test"
    "a.js" ["b.js"] rfl rfl (by decide) rfl rfl rfl rfl rfl rfl

/-- C8: in non-dry-run mode a successful transform overwrites the file at its
original path with the returned text verbatim (the final filesystem maps the
path to exactly that text); if the overwrite itself fails, the failure is
reported, later files are still attempted, and the run still exits 0. -/
theorem c8_commit_and_write_failure_nonfatal (w : World) (a : String) (cfg : Config)
    (sp tmpl k f text : String) (pre post : List String)
    (h1 : w.configArg = some a) (h2 : w.configResult = some cfg)
    (h3 : cfg.patterns ≠ []) (h4 : w.systemPromptResult = some sp)
    (h5 : w.userPromptResult = some tmpl)
    (h6 : w.globResult = some (pre ++ f :: post))
    (h7 : w.apiKey = some k) (hdry : cfg.dryRun = false)
    (hnd : (pre ++ f :: post).Nodup)
    (hok : (processFile w tmpl f).2 = some text) :
    (w.writeOk f = true →
      Event.wrote f text ∈ (mainRun w).1 ∧
      ∀ fs0 : String → Option String, finalFs fs0 (mainRun w).1 f = some text) ∧
    (w.writeOk f = false →
      Event.writeFailed f ∈ (mainRun w).1 ∧ (mainRun w).2 = 0 ∧
      ∀ g ∈ post, Event.fileRead g ∈ (mainRun w).1 ∨
        Event.readFailed g ∈ (mainRun w).1) := by
  have hm := mainRun_stages w a cfg sp tmpl (pre ++ f :: post) k h1 h2 h3 h4 h5 h6 h7
    (by simp)
  rw [hdry] at hm
  have ht1 : (mainRun w).1 =
      Event.globbed :: (runLoop w tmpl false cfg.intervalMilis (pre ++ f :: post)).1 := by
    rw [hm]
  have ht2 : (mainRun w).2 =
      (runLoop w tmpl false cfg.intervalMilis (pre ++ f :: post)).2.getD 0 := by rw [hm]
  have hfpost : f ∉ post :=
    (List.nodup_cons.mp (List.Nodup.of_append_right hnd)).1
  have hnopost : ∀ t, Event.wrote f t ∉
      (runLoop w tmpl false cfg.intervalMilis post).1 := by
    intro t hmem
    exact hfpost
      (runLoop_path w tmpl false cfg.intervalMilis post (Event.wrote f t) hmem f rfl)
  constructor
  · intro hw
    have htr : (runLoop w tmpl false cfg.intervalMilis (pre ++ f :: post)).1 =
        (runLoop w tmpl false cfg.intervalMilis pre).1 ++
          ((processFile w tmpl f).1 ++ [Event.wrote f text] ++
            [Event.delayed cfg.intervalMilis] ++
            (runLoop w tmpl false cfg.intervalMilis post).1) := by
      rw [runLoop_nondry_append,
        runLoop_nondry_cons_ok_w w tmpl cfg.intervalMilis f post text hok hw]
    rw [ht1, htr]
    constructor
    · apply List.mem_cons_of_mem
      apply List.mem_append.mpr
      refine Or.inr (List.mem_append.mpr (Or.inl ?_))
      exact List.mem_append.mpr (Or.inl (List.mem_append.mpr (Or.inr (by simp))))
    · intro fs0
      rw [finalFs_globbed_cons, finalFs_append, finalFs_append, finalFs_append,
        finalFs_append]
      rw [finalFs_no_wrote _ _ f hnopost]
      rw [finalFs_no_wrote _ _ f (by intro t hmem; simp at hmem)]
      simp [finalFs]
  · intro hw
    have htr : (runLoop w tmpl false cfg.intervalMilis (pre ++ f :: post)).1 =
        (runLoop w tmpl false cfg.intervalMilis pre).1 ++
          ((processFile w tmpl f).1 ++ [Event.writeFailed f] ++
            [Event.delayed cfg.intervalMilis] ++
            (runLoop w tmpl false cfg.intervalMilis post).1) := by
      rw [runLoop_nondry_append,
        runLoop_nondry_cons_ok_wf w tmpl cfg.intervalMilis f post text hok hw]
    refine ⟨?_, ?_, ?_⟩
    · rw [ht1, htr]
      apply List.mem_cons_of_mem
      apply List.mem_append.mpr
      refine Or.inr (List.mem_append.mpr (Or.inl ?_))
      exact List.mem_append.mpr (Or.inl (List.mem_append.mpr (Or.inr (by simp))))
    · rw [ht2, runLoop_nondry_exit]
      rfl
    · intro g hg
      have hmem : g ∈ pre ++ f :: post :=
        List.mem_append.mpr (Or.inr (List.mem_cons_of_mem f hg))
      rw [ht1]
      rcases runLoop_attempts_nondry w tmpl cfg.intervalMilis (pre ++ f :: post) g hmem
        with h | h
      · exact Or.inl (List.mem_cons_of_mem _ h)
      · exact Or.inr (List.mem_cons_of_mem _ h)

/-- C8 witness: the first file's overwrite fails, the second file is still
attempted and the run exits 0. -/
theorem c8_commit_and_write_failure_nonfatal_witness :
    Event.writeFailed "a.js" ∈ (mainRun wWriteFail).1 ∧ (mainRun wWriteFail).2 = 0 :=
  ⟨((c8_commit_and_write_failure_nonfatal wWriteFail "brush.config.json" cfg500
      "SYS" "T" "sk-test" "a.js" "A2" [] ["b.js"] rfl rfl (by decide) rfl rfl rfl rfl
      rfl (by decide) rfl).2 (by decide)).1,
   ((c8_commit_and_write_failure_nonfatal wWriteFail "brush.config.json" cfg500
      "SYS" "T" "sk-test" "a.js" "A2" [] ["b.js"] rfl rfl (by decide) rfl rfl rfl rfl
      rfl (by decide) rfl).2 (by decide)).2.1⟩

/-- C9: for every matched file (matched set without duplicates), the trace
contains exactly one disposition event for it when it is attempted and none
when it is not, and a file is never both reported skipped and overwritten in
the same run. -/
theorem c9_unique_outcome_per_target (w : World) (a : String) (cfg : Config)
    (sp tmpl k f : String) (entries : List String)
    (h1 : w.configArg = some a) (h2 : w.configResult = some cfg)
    (h3 : cfg.patterns ≠ []) (h4 : w.systemPromptResult = some sp)
    (h5 : w.userPromptResult = some tmpl) (h6 : w.globResult = some entries)
    (h7 : w.apiKey = some k) (h8 : entries ≠ [])
    (hnd : entries.Nodup) (hf : f ∈ entries) :
    ((Event.fileRead f ∈ (mainRun w).1 ∨ Event.readFailed f ∈ (mainRun w).1) →
      (outcomeEvents f (mainRun w).1).length = 1) ∧
    (¬(Event.fileRead f ∈ (mainRun w).1 ∨ Event.readFailed f ∈ (mainRun w).1) →
      (outcomeEvents f (mainRun w).1).length = 0) ∧
    ¬(Event.skipped f ∈ (mainRun w).1 ∧ ∃ t, Event.wrote f t ∈ (mainRun w).1) := by
  have hm := mainRun_stages w a cfg sp tmpl entries k h1 h2 h3 h4 h5 h6 h7 h8
  have ht1 : (mainRun w).1 =
      Event.globbed :: (runLoop w tmpl cfg.dryRun cfg.intervalMilis entries).1 := by
    rw [hm]
  have hoc := runLoop_outcome_count w tmpl cfg.dryRun cfg.intervalMilis entries hnd f hf
  have hout : outcomeEvents f
      (Event.globbed :: (runLoop w tmpl cfg.dryRun cfg.intervalMilis entries).1) =
      outcomeEvents f (runLoop w tmpl cfg.dryRun cfg.intervalMilis entries).1 := by
    simp [outcomeEvents, List.filter, isOutcome]
  rw [ht1]
  refine ⟨?_, ?_, ?_⟩
  · intro hc
    have hc' : Event.fileRead f ∈ (runLoop w tmpl cfg.dryRun cfg.intervalMilis entries).1 ∨
        Event.readFailed f ∈ (runLoop w tmpl cfg.dryRun cfg.intervalMilis entries).1 := by
      rcases hc with h | h
      · exact Or.inl (by simpa using h)
      · exact Or.inr (by simpa using h)
    rw [hout, hoc, if_pos hc']
  · intro hc
    have hc' : ¬(Event.fileRead f ∈ (runLoop w tmpl cfg.dryRun cfg.intervalMilis entries).1 ∨
        Event.readFailed f ∈ (runLoop w tmpl cfg.dryRun cfg.intervalMilis entries).1) := by
      intro hcc
      apply hc
      rcases hcc with h | h
      · exact Or.inl (List.mem_cons_of_mem _ h)
      · exact Or.inr (List.mem_cons_of_mem _ h)
    rw [hout, hoc, if_neg hc']
  · rintro ⟨hs, t, hwr⟩
    have hs' : Event.skipped f ∈ (runLoop w tmpl cfg.dryRun cfg.intervalMilis entries).1 := by
      simpa using hs
    have hwr' : Event.wrote f t ∈ (runLoop w tmpl cfg.dryRun cfg.intervalMilis entries).1 := by
      simpa using hwr
    have h1m : Event.skipped f ∈
        outcomeEvents f (runLoop w tmpl cfg.dryRun cfg.intervalMilis entries).1 :=
      List.mem_filter.mpr ⟨hs', by simp [isOutcome]⟩
    have h2m : Event.wrote f t ∈
        outcomeEvents f (runLoop w tmpl cfg.dryRun cfg.intervalMilis entries).1 :=
      List.mem_filter.mpr ⟨hwr', by simp [isOutcome]⟩
    have hlen := two_le_length_of_mem_ne h1m h2m (by simp)
    have hle : (outcomeEvents f
        (runLoop w tmpl cfg.dryRun cfg.intervalMilis entries).1).length ≤ 1 := by
      rw [hoc]
      split
      · exact le_refl 1
      · exact Nat.zero_le 1
    omega

/-- C9 witness. -/
theorem c9_unique_outcome_per_target_witness :
    (outcomeEvents "a.js" (mainRun baseWorld).1).length = 1 :=
  (c9_unique_outcome_per_target baseWorld "brush.config.json" cfg500 "SYS" "T"
      "sk-test" "a.js" ["a.js", "b.js"] rfl rfl (by decide) rfl rfl rfl rfl
      (by decide) (by decide) (by decide)).1 (by decide)

/-- C10: a non-empty choices list whose first message content is `null` makes
`processFile` return `null`, so the driver reports the file skipped, never
overwrites it, aborts with exit 1 in dry-run mode, and in general commits a
file only when the returned text is a non-null string. -/
theorem c10_null_content_treated_as_failure (w : World) (tmpl f : String)
    (post : List String) (interval : Nat) (c : String) (cs : List (Option String))
    (hread : w.readResult f = some c)
    (hreq : w.reqResult f = ReqOutcome.returned (none :: cs)) :
    (processFile w tmpl f).2 = none ∧
    (runLoop w tmpl true interval (f :: post)).2 = some 1 ∧
    Event.skipped f ∈ (runLoop w tmpl false interval (f :: post)).1 ∧
    (∀ t, Event.wrote f t ∉ (runLoop w tmpl false interval (f :: post)).1) ∧
    (∀ (d : Bool) (l : List String) (p t : String),
      Event.wrote p t ∈ (runLoop w tmpl d interval l).1 →
        (processFile w tmpl p).2 = some t) := by
  have hpf : (processFile w tmpl f).2 = none := by
    simp [processFile, hread, hreq]
  refine ⟨hpf, ?_, ?_, ?_, ?_⟩
  · rw [runLoop_dry_cons_fail w tmpl interval f post hpf]
  · rw [runLoop_nondry_cons_fail w tmpl interval f post hpf]
    simp
  · intro t hmem
    have := wrote_runLoop w tmpl false interval (f :: post) f t hmem
    rw [hpf] at this
    exact Option.noConfusion this.1
  · intro d l p t hmem
    exact (wrote_runLoop w tmpl d interval l p t hmem).1

/-- C10 witness. -/
theorem c10_null_content_treated_as_failure_witness :
    (processFile wNull "T" "a.js").2 = none ∧
      (runLoop wNull "T" true 500 ["a.js", "b.js"]).2 = some 1 :=
  ⟨(c10_null_content_treated_as_failure wNull "T" "a.js" ["b.js"] 500 "A1" []
      rfl rfl).1,
   (c10_null_content_treated_as_failure wNull "T" "a.js" ["b.js"] 500 "A1" []
      rfl rfl).2.1⟩

end Brush
